import Mathlib

/-!
Shallow embedding of `src/scripts/format.py`:

```python
  with open("./instructions/6502.txt", "r") as file:
      lines = file.read().splitlines()
      defs = typing.cast(list[tuple[str, str]], list(batched(lines,2)))
      docs = dict(defs)
      print(json.dumps(docs))
```

The script reads one fixed file, splits its contents into lines with
`str.splitlines`, groups the lines two at a time with `itertools.batched`
(the omitted header pulls in `batched`, `typing` and `json`),
builds a `dict` from the batches, and prints the `json.dumps` serialization.
We model the file system as an `Option String` (the contents of
`./instructions/6502.txt`, or `none` when the file is missing), standard
output as the list of `print` payloads, and an uncaught Python exception as
an error value: `FileNotFoundError` from `open`, or the `ValueError` that
`dict` raises on a sequence element that is not a 2-element tuple.
-/

/-- Uncaught Python exceptions the script can die with. -/
inductive PyError where
  | fileNotFound
  | valueError
  deriving DecidableEq, Repr

/-- Characters `str.splitlines` treats as line boundaries
(`\n`, `\r`, `\v`, `\f`, `\x1c`, `\x1d`, `\x1e`, `\x85`, `\u2028`, `\u2029`). -/
def isLineBreak (c : Char) : Bool :=
  c = '\n' || c = '\r' || c = '\x0b' || c = '\x0c' ||
  c = '\x1c' || c = '\x1d' || c = '\x1e' || c = '\x85' ||
  c = '\u2028' || c = '\u2029'

/-- Worker for `splitlines`: scans the characters left to right, `acc` holding
the current (reversed) line and `afterCR` recording whether the previous
character was a `\r` that already closed a line, so that a `\r\n` sequence
counts as a single boundary. A pending line at the end of the input is
emitted only when it is nonempty. -/
def splitlinesCore : List Char → List Char → Bool → List String
  | [], acc, _ => if acc.isEmpty then [] else [String.mk acc.reverse]
  | c :: cs, acc, afterCR =>
    if c = '\n' ∧ afterCR = true then
      splitlinesCore cs acc false
    else if isLineBreak c then
      String.mk acc.reverse :: splitlinesCore cs [] (decide (c = '\r'))
    else
      splitlinesCore cs (c :: acc) false

/-- Python `str.splitlines()` (keepends given as false). -/
def splitlines (s : String) : List String :=
  splitlinesCore s.data [] false

/-- Python `list(itertools.batched(lines, 2))`: groups the list two at a
time; the final batch is shorter when the length is odd (`strict` defaults
to `False`). -/
def batched2 : List String → List (List String)
  | [] => []
  | [a] => [[a]]
  | a :: b :: rest => [a, b] :: batched2 rest

/-- One CPython `dict` insertion `d[k] = v`: overwriting an existing key
keeps its original position, a new key is appended (insertion order). -/
def dictInsert (d : List (String × String)) (k v : String) :
    List (String × String) :=
  if k ∈ d.map Prod.fst then
    d.map (fun p => if p.1 = k then (k, v) else p)
  else
    d ++ [(k, v)]

/-- Python `dict(defs)` on a list of batches: each element must have exactly
two components, otherwise `dict` raises `ValueError`; valid pairs are
inserted left to right. -/
def pyDictAux (d : List (String × String)) :
    List (List String) → Except PyError (List (String × String))
  | [] => .ok d
  | [k, v] :: rest => pyDictAux (dictInsert d k v) rest
  | _ => .error .valueError

/-- CPython `dict` built from a list of proper key-value pairs. -/
def dictOfPairs (ps : List (String × String)) : List (String × String) :=
  ps.foldl (fun d p => dictInsert d p.1 p.2) []

/-- The adjacent pairs `(L[0], L[1]), (L[2], L[3]), …` of a line sequence;
a final unpaired element contributes nothing. -/
def expectedPairs : List String → List (String × String)
  | a :: b :: rest => (a, b) :: expectedPairs rest
  | _ => []

/-- First-occurrence deduplication relative to already-`seen` keys. -/
def firstOccAux (seen : List String) : List String → List String
  | [] => []
  | k :: rest =>
    if k ∈ seen then firstOccAux seen rest
    else k :: firstOccAux (k :: seen) rest

/-- The keys of a pair list in first-occurrence order. -/
def firstOccurrences (ks : List String) : List String :=
  firstOccAux [] ks

/-- Lowercase hexadecimal digit, as the CPython `\u%04x` formatting uses. -/
def hexDigit (n : Nat) : Char :=
  if n < 10 then Char.ofNat (48 + n) else Char.ofNat (87 + n)

/-- A `\uXXXX` escape for a code unit below `0x10000`. -/
def u4 (n : Nat) : List Char :=
  ['\\', 'u', hexDigit (n / 4096 % 16), hexDigit (n / 256 % 16),
   hexDigit (n / 16 % 16), hexDigit (n % 16)]

/-- The CPython `json` ASCII escape of a code point: one `\uXXXX`, or a
surrogate pair for code points at `0x10000` and above. -/
def uEscape (n : Nat) : List Char :=
  if n < 0x10000 then u4 n
  else u4 (0xd800 + (n - 0x10000) / 0x400) ++ u4 (0xdc00 + (n - 0x10000) % 0x400)

/-- How `json.dumps` (default `ensure_ascii=True`) renders one character of
a string: named escapes for `\` `"` and the usual control characters, `\u`
escapes for other control and all non-ASCII characters. -/
def escapeChar (c : Char) : List Char :=
  if c = '\\' then ['\\', '\\']
  else if c = '"' then ['\\', '"']
  else if c = '\x08' then ['\\', 'b']
  else if c = '\x0c' then ['\\', 'f']
  else if c = '\n' then ['\\', 'n']
  else if c = '\r' then ['\\', 'r']
  else if c = '\t' then ['\\', 't']
  else if c.toNat < 0x20 || 0x80 ≤ c.toNat then uEscape c.toNat
  else [c]

/-- A JSON string literal as `json.dumps` emits it. -/
def jsonString (s : String) : String :=
  "\"" ++ String.mk (s.data.flatMap escapeChar) ++ "\""

/-- Python `json.dumps` on a `dict` with string keys and values: a single
object, entries in the insertion order of the dict, with the default separators
`", "` and `": "`. -/
def jsonDumps (d : List (String × String)) : String :=
  "\x7b" ++ String.intercalate ", "
    (d.map (fun p => jsonString p.1 ++ ": " ++ jsonString p.2)) ++ "\x7d"

/-- The `docs = dict(list(batched(lines, 2)))` step of the script. -/
def docsOf (lines : List String) : Except PyError (List (String × String)) :=
  pyDictAux [] (batched2 lines)

/-- The script from `lines = file.read().splitlines()` on: the list of
`print` payloads written to standard output, paired with the uncaught
exception, if any, the process dies with. -/
def convertLines (lines : List String) : List String × Option PyError :=
  match docsOf lines with
  | .error e => ([], some e)
  | .ok docs => ([jsonDumps docs], none)

/-- The whole script run against a file system in which
`./instructions/6502.txt` either holds `contents` or is absent. A missing
(or unreadable) file makes `open` raise `FileNotFoundError`, which nothing
catches, so nothing is printed. -/
def pyRun (file : Option String) : List String × Option PyError :=
  match file with
  | none => ([], some .fileNotFound)
  | some contents => convertLines (splitlines contents)

/-- Whether a `dict` construction succeeded. -/
def exceptIsOk : Except PyError (List (String × String)) → Bool
  | .ok _ => true
  | .error _ => false

example : splitlines "LDA\nLoad Accumulator\nSTA\nStore Accumulator\n" =
    ["LDA", "Load Accumulator", "STA", "Store Accumulator"] := by decide

example : splitlines "\n" = [""] := by decide

example : splitlines "a\r\nb" = ["a", "b"] := by decide

example : pyRun (some "") = (["\x7b\x7d"], none) := by decide

example : pyRun (some "A") = ([], some .valueError) := by decide

example : pyRun (some "LDA\nLoad Accumulator\nSTA\nStore Accumulator\n") =
    (["\x7b\"LDA\": \"Load Accumulator\", \"STA\": \"Store Accumulator\"\x7d"],
     none) := by decide

/-! Lemmas about the batching and `dict` construction steps. -/

theorem pyDictAux_odd : ∀ (L : List String) (d : List (String × String)),
    L.length % 2 = 1 → pyDictAux d (batched2 L) = .error .valueError
  | [], _, h => by simp at h
  | [_], _, _ => rfl
  | a :: b :: rest, d, h => by
    have hr : rest.length % 2 = 1 := by
      simp [List.length_cons] at h ⊢; omega
    simpa [batched2, pyDictAux] using pyDictAux_odd rest (dictInsert d a b) hr

theorem pyDictAux_even : ∀ (L : List String) (d : List (String × String)),
    L.length % 2 = 0 →
    pyDictAux d (batched2 L) =
      .ok ((expectedPairs L).foldl (fun d p => dictInsert d p.1 p.2) d)
  | [], _, _ => rfl
  | [_], _, h => by simp at h
  | a :: b :: rest, d, h => by
    have hr : rest.length % 2 = 0 := by
      simp [List.length_cons] at h ⊢; omega
    simpa [batched2, pyDictAux, expectedPairs]
      using pyDictAux_even rest (dictInsert d a b) hr

theorem batched2_lengths : ∀ L : List String,
    L.length % 2 = 0 → ((batched2 L).all fun b => b.length == 2) = true
  | [], _ => rfl
  | [_], h => by simp at h
  | a :: b :: rest, h => by
    have hr : rest.length % 2 = 0 := by
      simp [List.length_cons] at h ⊢; omega
    simpa [batched2] using batched2_lengths rest hr

theorem expectedPairs_length : ∀ L : List String,
    (expectedPairs L).length = L.length / 2
  | [] => rfl
  | [_] => by simp [expectedPairs]
  | a :: b :: rest => by
    simp [expectedPairs, expectedPairs_length rest]
    omega

theorem expectedPairs_get : ∀ (L : List String) (i : Nat),
    2 * i + 1 < L.length →
    (expectedPairs L)[i]? = some (L.getD (2 * i) "", L.getD (2 * i + 1) "")
  | [], _, h => by simp at h
  | [_], _, h => by simp at h
  | a :: b :: rest, 0, _ => by simp [expectedPairs]
  | a :: b :: rest, i + 1, h => by
    have hr : 2 * i + 1 < rest.length := by
      simp [List.length_cons] at h; omega
    have e2 : 2 * (i + 1) = 2 * i + 1 + 1 := by ring
    simpa [expectedPairs, e2] using expectedPairs_get rest i hr

/-! Lemmas about CPython `dict` insertion semantics. -/

theorem map_fst_overwrite (d : List (String × String)) (k v : String) :
    (d.map fun p => if p.1 = k then (k, v) else p).map Prod.fst =
      d.map Prod.fst := by
  induction d with
  | nil => rfl
  | cons p rest ih =>
    by_cases hp : p.1 = k
    · simp [hp, ih]
    · simp [hp, ih]

theorem keys_dictInsert (d : List (String × String)) (k v : String) :
    (dictInsert d k v).map Prod.fst =
      if k ∈ d.map Prod.fst then d.map Prod.fst else d.map Prod.fst ++ [k] := by
  by_cases hk : k ∈ d.map Prod.fst
  · rw [dictInsert, if_pos hk, if_pos hk, map_fst_overwrite]
  · rw [dictInsert, if_neg hk, if_neg hk, List.map_append]
    rfl

theorem lookup_eq_none_of_not_mem (d : List (String × String)) (k : String)
    (h : k ∉ d.map Prod.fst) : d.lookup k = none := by
  rw [List.lookup_eq_none_iff]
  intro p hp
  simp only [bne_iff_ne, ne_eq]
  intro hk
  exact h (by rw [hk]; exact List.mem_map_of_mem Prod.fst hp)

theorem lookup_overwrite (d : List (String × String)) (k0 v0 k : String) :
    (d.map fun p => if p.1 = k0 then (k0, v0) else p).lookup k =
      if k = k0 then (if k0 ∈ d.map Prod.fst then some v0 else none)
      else d.lookup k := by
  induction d with
  | nil => by_cases hk : k = k0 <;> simp [hk, List.lookup]
  | cons p rest ih =>
    obtain ⟨a, b⟩ := p
    by_cases ha : a = k0
    · subst ha
      by_cases hk : k = a
      · subst hk
        simp [List.lookup_cons]
      · simp [List.lookup_cons, beq_eq_false_iff_ne.mpr hk, hk, ih]
    · by_cases hk : k = a
      · subst hk
        simp [List.lookup_cons, ha, Ne.symm ha]
      · simp [List.lookup_cons, beq_eq_false_iff_ne.mpr hk, hk, ih, ha,
          Ne.symm ha, List.mem_cons]
        by_cases hkk : k = k0
        · simp only [hkk, if_pos rfl]
          by_cases hm : k0 ∈ List.map Prod.fst rest
          · rw [if_pos hm, if_pos (List.mem_cons_of_mem a hm)]
          · have hm2 : k0 ∉ a :: List.map Prod.fst rest := by
              intro hx
              rcases List.mem_cons.mp hx with h1 | h2
              · exact ha h1.symm
              · exact hm h2
            rw [if_neg hm, if_neg hm2]
        · simp [hkk]

theorem lookup_dictInsert (d : List (String × String)) (k0 v0 k : String) :
    (dictInsert d k0 v0).lookup k = if k = k0 then some v0 else d.lookup k := by
  rw [dictInsert]
  by_cases hm : k0 ∈ d.map Prod.fst
  · rw [if_pos hm, lookup_overwrite]
    simp [hm]
  · rw [if_neg hm, List.lookup_append]
    by_cases hk : k = k0
    · subst hk
      rw [lookup_eq_none_of_not_mem d k hm]
      simp [List.lookup_cons]
    · have h1 : List.lookup k [(k0, v0)] = none := by
        simp [List.lookup_cons, beq_eq_false_iff_ne.mpr hk]
      rw [h1, if_neg hk]
      cases d.lookup k <;> simp [Option.or]

theorem lookup_foldl (ps : List (String × String)) : ∀ (d : List (String × String)) (k : String),
    (ps.foldl (fun d p => dictInsert d p.1 p.2) d).lookup k =
      ((ps.reverse.lookup k).or (d.lookup k)) := by
  induction ps with
  | nil => intro d k; simp
  | cons p rest ih =>
    intro d k
    obtain ⟨a, b⟩ := p
    rw [List.foldl_cons, ih, List.reverse_cons, List.lookup_append]
    rw [lookup_dictInsert]
    cases hr : rest.reverse.lookup k with
    | some v => simp [Option.or]
    | none =>
      simp only [Option.or]
      by_cases hk : k = a
      · subst hk
        simp [List.lookup_cons]
      · simp [List.lookup_cons, beq_eq_false_iff_ne.mpr hk, hk, Option.or]

theorem lookup_dictOfPairs (ps : List (String × String)) (k : String) :
    (dictOfPairs ps).lookup k = ps.reverse.lookup k := by
  rw [dictOfPairs, lookup_foldl]
  cases ps.reverse.lookup k <;> simp [Option.or, List.lookup]

theorem firstOccAux_congr (ks : List String) : ∀ s1 s2 : List String,
    (∀ x, x ∈ s1 ↔ x ∈ s2) → firstOccAux s1 ks = firstOccAux s2 ks := by
  induction ks with
  | nil => intro _ _ _; rfl
  | cons k rest ih =>
    intro s1 s2 h
    by_cases hk : k ∈ s1
    · rw [firstOccAux, firstOccAux, if_pos hk, if_pos ((h k).mp hk), ih _ _ h]
    · have hk2 : k ∉ s2 := fun hx => hk ((h k).mpr hx)
      rw [firstOccAux, firstOccAux, if_neg hk, if_neg hk2]
      refine congrArg _ (ih _ _ ?_)
      intro x
      simp [List.mem_cons, h x]

theorem keys_foldl (ps : List (String × String)) : ∀ d : List (String × String),
    ((ps.foldl (fun d p => dictInsert d p.1 p.2) d).map Prod.fst) =
      d.map Prod.fst ++ firstOccAux (d.map Prod.fst) (ps.map Prod.fst) := by
  induction ps with
  | nil => intro d; simp [firstOccAux]
  | cons p rest ih =>
    intro d
    obtain ⟨a, b⟩ := p
    rw [List.foldl_cons, ih]
    by_cases hm : a ∈ d.map Prod.fst
    · rw [keys_dictInsert, if_pos hm, List.map_cons, firstOccAux, if_pos hm]
    · rw [keys_dictInsert, if_neg hm, List.map_cons, firstOccAux, if_neg hm]
      rw [firstOccAux_congr _ (d.map Prod.fst ++ [a]) (a :: d.map Prod.fst)
        (by intro x; simp [List.mem_cons, List.mem_append, or_comm])]
      simp

theorem keys_dictOfPairs (ps : List (String × String)) :
    (dictOfPairs ps).map Prod.fst = firstOccurrences (ps.map Prod.fst) := by
  simpa [dictOfPairs, firstOccurrences] using keys_foldl ps []

theorem mem_firstOccAux (k : String) (ks : List String) : ∀ seen : List String,
    k ∈ firstOccAux seen ks ↔ (k ∈ ks ∧ k ∉ seen) := by
  induction ks with
  | nil => intro seen; simp [firstOccAux]
  | cons a rest ih =>
    intro seen
    by_cases ha : a ∈ seen
    · rw [firstOccAux, if_pos ha, ih]
      constructor
      · rintro ⟨h1, h2⟩
        exact ⟨List.mem_cons_of_mem a h1, h2⟩
      · rintro ⟨h1, h2⟩
        rcases List.mem_cons.mp h1 with h3 | h3
        · exact absurd (h3 ▸ ha) h2
        · exact ⟨h3, h2⟩
    · rw [firstOccAux, if_neg ha]
      by_cases hk : k = a
      · subst hk
        simp [ha]
      · rw [List.mem_cons, ih]
        simp [hk, List.mem_cons]

theorem nodup_firstOccAux (ks : List String) : ∀ seen : List String,
    (firstOccAux seen ks).Nodup := by
  induction ks with
  | nil => intro _; simp [firstOccAux]
  | cons a rest ih =>
    intro seen
    by_cases ha : a ∈ seen
    · rw [firstOccAux, if_pos ha]
      exact ih seen
    · rw [firstOccAux, if_neg ha, List.nodup_cons]
      refine ⟨fun hmem => ?_, ih _⟩
      exact ((mem_firstOccAux a rest (a :: seen)).mp hmem).2 (List.mem_cons_self a seen)

theorem foldl_insert_eq_append (ps : List (String × String)) :
    ∀ d : List (String × String), (ps.map Prod.fst).Nodup →
    (∀ k ∈ ps.map Prod.fst, k ∉ d.map Prod.fst) →
    ps.foldl (fun d p => dictInsert d p.1 p.2) d = d ++ ps := by
  induction ps with
  | nil => intro d _ _; simp
  | cons p rest ih =>
    intro d hnd hdisj
    obtain ⟨a, b⟩ := p
    have ha : a ∉ d.map Prod.fst := hdisj a (by simp)
    rw [List.foldl_cons]
    show rest.foldl _ (dictInsert d a b) = d ++ (a, b) :: rest
    rw [dictInsert, if_neg ha]
    rw [List.map_cons] at hnd
    have hrest : rest.foldl (fun d p => dictInsert d p.1 p.2) (d ++ [(a, b)]) =
        (d ++ [(a, b)]) ++ rest := by
      refine ih (d ++ [(a, b)]) (List.Nodup.of_cons hnd) ?_
      intro k hk
      rw [List.map_append, List.mem_append]
      rintro (h1 | h2)
      · exact hdisj k (List.mem_cons_of_mem _ hk) h1
      · have : k = a := by simpa using h2
        exact (List.nodup_cons.mp hnd).1 (this ▸ hk)
    rw [hrest]
    simp

theorem dictOfPairs_eq_self (ps : List (String × String))
    (h : (ps.map Prod.fst).Nodup) : dictOfPairs ps = ps := by
  simpa [dictOfPairs] using foldl_insert_eq_append ps [] h (by simp)

/-! Lemmas about `splitlines` and the assembled program. -/

theorem isLineBreak_lf : isLineBreak '\n' = true := by decide

theorem splitlinesCore_append_newline (cs : List Char) : ∀ (c : Char),
    isLineBreak c = false → ∀ (acc : List Char) (afterCR : Bool),
    splitlinesCore ((cs ++ [c]) ++ ['\n']) acc afterCR =
      splitlinesCore (cs ++ [c]) acc afterCR := by
  induction cs with
  | nil =>
    intro c hc acc afterCR
    have hcn : ¬(c = '\n' ∧ afterCR = true) := by
      intro h
      rw [h.1] at hc
      exact absurd hc (by decide)
    simp [splitlinesCore, hcn, hc, isLineBreak_lf]
  | cons e cs ih =>
    intro c hc acc afterCR
    simp only [List.cons_append]
    by_cases h1 : e = '\n' ∧ afterCR = true
    · simp only [splitlinesCore, if_pos h1]
      exact ih c hc acc false
    · by_cases h2 : isLineBreak e = true
      · simp [splitlinesCore, h1, h2]
        simpa using ih c hc [] (decide (e = '\r'))
      · have h3 : isLineBreak e = false := by
          cases he : isLineBreak e
          · rfl
          · exact absurd he h2
        simp [splitlinesCore, h1, h3]
        simpa using ih c hc (e :: acc) false

theorem docsOf_even (L : List String) (he : L.length % 2 = 0) :
    docsOf L = .ok (dictOfPairs (expectedPairs L)) := by
  rw [docsOf, pyDictAux_even L [] he, dictOfPairs]

theorem convertLines_even (L : List String) (he : L.length % 2 = 0) :
    convertLines L = ([jsonDumps (dictOfPairs (expectedPairs L))], none) := by
  simp [convertLines, docsOf_even L he]

/-! Claim theorems. -/

/-- C1, counterexample: on the odd-length input "A" the program does not
drop the unpaired line silently; `dict` raises `ValueError`, so an error is
raised, refuting the claim that no error occurs. -/
theorem c1_counterexample :
    (splitlines "A").length % 2 = 1 ∧
    pyRun (some "A") = ([], some PyError.valueError) := by
  decide

/-- C1 (amended): for every input whose line sequence has odd length, the
program dies with an uncaught `ValueError` raised while building the
mapping, and prints nothing (so the final unpaired line appears in no
output, but not silently: the run fails). -/
theorem c1_amended (contents : String)
    (h : (splitlines contents).length % 2 = 1) :
    pyRun (some contents) = ([], some PyError.valueError) := by
  have he := pyDictAux_odd (splitlines contents) [] h
  simp [pyRun, convertLines, docsOf, he]

/-- C1 witness: the amended claim applied to the concrete input "A". -/
theorem c1_witness :
    (splitlines "A").length % 2 = 1 ∧
    pyRun (some "A") = ([], some PyError.valueError) :=
  ⟨by decide, c1_amended "A" (by decide)⟩

/-- C9: for every odd-length line sequence the program terminates with the
uncaught `ValueError` raised during `dict` construction (the trailing
1-element batch is rejected), and nothing is printed. -/
theorem c9_odd_raises (lines : List String) (h : lines.length % 2 = 1) :
    convertLines lines = ([], some PyError.valueError) := by
  have he := pyDictAux_odd lines [] h
  simp [convertLines, docsOf, he]

/-- C9 witness: the odd-length line sequence ["A"]. -/
theorem c9_witness :
    (["A"] : List String).length % 2 = 1 ∧
    convertLines ["A"] = ([], some PyError.valueError) :=
  ⟨by decide, c9_odd_raises ["A"] (by decide)⟩

/-- C10: for an even-length line sequence every batch produced by
`batched(lines, 2)` has exactly two elements, and the `dict` construction
succeeds (its `ValueError` branch is unreachable). -/
theorem c10_even_safe (L : List String) (he : L.length % 2 = 0) :
    ((batched2 L).all fun b => b.length == 2) = true ∧
    exceptIsOk (docsOf L) = true := by
  refine ⟨batched2_lengths L he, ?_⟩
  rw [docsOf_even L he]
  rfl

/-- C10 witness: the even-length line sequence ["X", "Y"]. -/
theorem c10_witness :
    (["X", "Y"] : List String).length % 2 = 0 ∧
    ((batched2 ["X", "Y"]).all fun b => b.length == 2) = true ∧
    exceptIsOk (docsOf ["X", "Y"]) = true :=
  ⟨by decide, c10_even_safe ["X", "Y"] (by decide)⟩

/-- C4: when the input file is missing, `open` raises `FileNotFoundError`,
nothing catches it, and nothing is printed on standard output. -/
theorem c4_missing_file : pyRun none = ([], some PyError.fileNotFound) := rfl

/-- C6: the run is a deterministic function of the file contents; two runs
over the same unchanged file produce identical output. -/
theorem c6_deterministic (file1 file2 : Option String) (h : file1 = file2) :
    pyRun file1 = pyRun file2 := by
  rw [h]

/-- C6 witness: two runs on the concrete contents "X\nY". -/
theorem c6_witness :
    (some "X\nY" : Option String) = some "X\nY" ∧
    pyRun (some "X\nY") = pyRun (some "X\nY") :=
  ⟨rfl, c6_deterministic (some "X\nY") (some "X\nY") rfl⟩

/-- C7: the empty input file yields exactly the output `\x7b\x7d` and no
error. -/
theorem c7_empty_input : pyRun (some "") = (["\x7b\x7d"], none) := by
  decide

/-- C2, counterexample: the even-length line sequence
["LDA", "A", "LDA", "B"] has duplicate even-indexed lines, so the mapping
has one entry, not len(L)/2 = 2, refuting the claim as stated for all
even-length sequences. -/
theorem c2_counterexample :
    docsOf ["LDA", "A", "LDA", "B"] = Except.ok [("LDA", "B")] ∧
    [("LDA", "B")].length ≠ (["LDA", "A", "LDA", "B"] : List String).length / 2 :=
  ⟨by rfl, by decide⟩

/-- C2 (amended): for every even-length line sequence L whose even-indexed
lines are pairwise distinct, the mapping has exactly len(L)/2 entries, and
entry i is the unmodified pair (L[2i], L[2i+1]). -/
theorem c2_amended (L : List String) (i : Nat) (he : L.length % 2 = 0)
    (hd : ((expectedPairs L).map Prod.fst).Nodup) (hi : 2 * i + 1 < L.length) :
    docsOf L = Except.ok (expectedPairs L) ∧
    (expectedPairs L).length = L.length / 2 ∧
    (expectedPairs L)[i]? = some (L.getD (2 * i) "", L.getD (2 * i + 1) "") := by
  refine ⟨?_, expectedPairs_length L, expectedPairs_get L i hi⟩
  rw [docsOf_even L he, dictOfPairs_eq_self _ hd]

/-- C2 witness: the amended claim at the standard 4-line input and i = 1. -/
theorem c2_witness :
    docsOf ["LDA", "Load Accumulator", "STA", "Store Accumulator"] =
      Except.ok (expectedPairs ["LDA", "Load Accumulator", "STA", "Store Accumulator"]) ∧
    (expectedPairs ["LDA", "Load Accumulator", "STA", "Store Accumulator"]).length =
      (["LDA", "Load Accumulator", "STA", "Store Accumulator"] : List String).length / 2 ∧
    (expectedPairs ["LDA", "Load Accumulator", "STA", "Store Accumulator"])[1]? =
      some ((["LDA", "Load Accumulator", "STA", "Store Accumulator"] : List String).getD (2 * 1) "",
        (["LDA", "Load Accumulator", "STA", "Store Accumulator"] : List String).getD (2 * 1 + 1) "") :=
  c2_amended ["LDA", "Load Accumulator", "STA", "Store Accumulator"] 1
    (by decide) (by decide) (by decide)

/-- C3: for every even-length line sequence whose even-indexed lines
contain a duplicate mnemonic k (at least two pairs share key k), the
mapping contains exactly one entry for k, whose value is the description of
the last pair formed with key k. -/
theorem c3_last_write_wins (L : List String) (k : String)
    (he : L.length % 2 = 0)
    (hdup : 2 ≤ ((expectedPairs L).map Prod.fst).count k) :
    docsOf L = Except.ok (dictOfPairs (expectedPairs L)) ∧
    ((dictOfPairs (expectedPairs L)).map Prod.fst).count k = 1 ∧
    (dictOfPairs (expectedPairs L)).lookup k =
      (expectedPairs L).reverse.lookup k := by
  refine ⟨docsOf_even L he, ?_, lookup_dictOfPairs _ k⟩
  rw [keys_dictOfPairs]
  have hmem : k ∈ (expectedPairs L).map Prod.fst := by
    by_contra hn
    rw [List.count_eq_zero_of_not_mem hn] at hdup
    omega
  have hm2 : k ∈ firstOccurrences ((expectedPairs L).map Prod.fst) := by
    rw [firstOccurrences]
    exact (mem_firstOccAux k _ []).mpr ⟨hmem, by simp⟩
  exact List.count_eq_one_of_mem
    (by rw [firstOccurrences]; exact nodup_firstOccAux _ []) hm2

/-- C3 witness: the duplicate-key input ["LDA", "A", "LDA", "B"]. -/
theorem c3_witness :
    docsOf ["LDA", "A", "LDA", "B"] =
      Except.ok (dictOfPairs (expectedPairs ["LDA", "A", "LDA", "B"])) ∧
    ((dictOfPairs (expectedPairs ["LDA", "A", "LDA", "B"])).map Prod.fst).count "LDA" = 1 ∧
    (dictOfPairs (expectedPairs ["LDA", "A", "LDA", "B"])).lookup "LDA" =
      (expectedPairs ["LDA", "A", "LDA", "B"]).reverse.lookup "LDA" :=
  c3_last_write_wins ["LDA", "A", "LDA", "B"] "LDA" (by decide) (by decide)

/-- C5: for every even-length line sequence the printed JSON text is the
serialization of the mapping in its entry order, and that order lists the
keys in first-insertion order (first occurrence among the formed pairs),
also when a later duplicate pair overwrote a value. -/
theorem c5_key_order (L : List String) (he : L.length % 2 = 0) :
    convertLines L = ([jsonDumps (dictOfPairs (expectedPairs L))], none) ∧
    (dictOfPairs (expectedPairs L)).map Prod.fst =
      firstOccurrences ((expectedPairs L).map Prod.fst) :=
  ⟨convertLines_even L he, keys_dictOfPairs _⟩

/-- C5 witness: key order on the duplicate-key input
["LDA", "A", "STA", "B", "LDA", "C"]. -/
theorem c5_witness :
    convertLines ["LDA", "A", "STA", "B", "LDA", "C"] =
      ([jsonDumps (dictOfPairs (expectedPairs ["LDA", "A", "STA", "B", "LDA", "C"]))], none) ∧
    (dictOfPairs (expectedPairs ["LDA", "A", "STA", "B", "LDA", "C"])).map Prod.fst =
      firstOccurrences ((expectedPairs ["LDA", "A", "STA", "B", "LDA", "C"]).map Prod.fst) :=
  c5_key_order ["LDA", "A", "STA", "B", "LDA", "C"] (by decide)

/-- C8, counterexample: the contents "A\nB\n\n\n" end in a newline, yet the
final entry of the line sequence is the empty string, refuting "a file whose
contents end in a newline yields no final empty-string line". -/
theorem c8_counterexample :
    ("A\nB\n\n\n" : String).data.getLastD ' ' = '\n' ∧
    splitlines "A\nB\n\n\n" = ["A", "B", "", ""] ∧
    (splitlines "A\nB\n\n\n").getLastD "x" = "" := by
  decide

/-- C8 (amended): splitting retains no entry for the empty segment after a
final newline: when the contents end in a newline preceded by a
non-line-break character (a nonempty final line), the line sequence equals
that of the contents without the final newline; a final empty line can
still occur when the contents end in consecutive line breaks. The concrete
scenario holds: the four-line file yields the expected two-entry object. -/
theorem c8_amended (cs : List Char) (c : Char) (hc : isLineBreak c = false) :
    splitlines (String.mk (cs ++ [c] ++ ['\n'])) =
      splitlines (String.mk (cs ++ [c])) ∧
    pyRun (some "LDA\nLoad Accumulator\nSTA\nStore Accumulator\n") =
      (["\x7b\"LDA\": \"Load Accumulator\", \"STA\": \"Store Accumulator\"\x7d"],
       none) := by
  constructor
  · exact splitlinesCore_append_newline cs c hc [] false
  · decide

/-- C8 witness: the amended claim at the concrete contents "LDAB\n". -/
theorem c8_witness :
    isLineBreak 'B' = false ∧
    (splitlines (String.mk (['L', 'D', 'A'] ++ ['B'] ++ ['\n'])) =
      splitlines (String.mk (['L', 'D', 'A'] ++ ['B'])) ∧
    pyRun (some "LDA\nLoad Accumulator\nSTA\nStore Accumulator\n") =
      (["\x7b\"LDA\": \"Load Accumulator\", \"STA\": \"Store Accumulator\"\x7d"],
       none)) :=
  ⟨by decide, c8_amended ['L', 'D', 'A'] 'B' (by decide)⟩
